import Mathlib

/-!
Verification of the marker chunked job-queue server
(`marker/scripts/server_ui.py` and `marker/integrations/google_drive.py`).

The Python source is shallowly embedded: pure helpers become Lean
functions, the SQLite tables and in-memory queue become explicit record
states, and the asyncio draining loop becomes a small-step transition
relation on a system state.  Theorems state the documented properties of
the chunk planner, the result merger, the queue coordinator, the
submission endpoint and the Google Drive poller.
-/

/-! ## Chunk planner (`server_ui.py`, `MAX_PAGES_PER_CHUNK`, `calculate_chunks`) -/

/-- `MAX_PAGES_PER_CHUNK = 5` — process 5 pages at a time (server_ui.py line 52). -/
def MAX_PAGES_PER_CHUNK : Nat := 5

/-- Embedding of `calculate_chunks(page_count)` (server_ui.py lines 172-188).

If `page_count <= MAX_PAGES_PER_CHUNK` it returns `[list(range(page_count))]`;
otherwise it appends `list(range(start, min(start+MAX, page_count)))` for each
`start in range(0, page_count, MAX)`.  The Python stepped range
`range(0, n, 5)` has `⌈n/5⌉` elements `0, 5, 10, …`, embedded as a `map`
over `List.range ((n + 4) / 5)`; `list(range(a, b))` is `List.range' a (b - a)`. -/
def calculate_chunks (page_count : Nat) : List (List Nat) :=
  if page_count ≤ MAX_PAGES_PER_CHUNK then
    [List.range page_count]
  else
    (List.range ((page_count + MAX_PAGES_PER_CHUNK - 1) / MAX_PAGES_PER_CHUNK)).map
      (fun i =>
        let start := i * MAX_PAGES_PER_CHUNK
        List.range' start (min (start + MAX_PAGES_PER_CHUNK) page_count - start))

/-- Flattening the full 5-page chunks `[0..5), [5..10), …` gives `[0..5k)`. -/
lemma flatten_full_chunks (k : Nat) :
    (((List.range k).map (fun i => List.range' (i * 5) 5)).flatten) = List.range (5 * k) := by
  induction k with
  | zero => simp
  | succ k ih =>
    rw [List.range_succ, List.map_append, List.flatten_append, ih]
    simp only [List.map_cons, List.map_nil, List.flatten_cons, List.flatten_nil,
      List.append_nil]
    rw [List.range_eq_range', List.range_eq_range']
    have h := List.range'_append 0 (5 * k) 5 1
    simp only [Nat.one_mul, Nat.zero_add] at h
    rw [show k * 5 = 5 * k by omega, h]
    congr 1
    omega

/-- For `5*k < n ≤ 5*k + 5`, flattening the mapped chunk list gives `[0..n)`. -/
lemma flatten_chunks_aux (n k : Nat) (h1 : 5 * k < n) (h2 : n ≤ 5 * k + 5) :
    (((List.range (k + 1)).map
        (fun i => List.range' (i * 5) (min (i * 5 + 5) n - i * 5))).flatten)
      = List.range n := by
  rw [List.range_succ, List.map_append, List.flatten_append]
  have hfull : (List.range k).map (fun i => List.range' (i * 5) (min (i * 5 + 5) n - i * 5))
      = (List.range k).map (fun i => List.range' (i * 5) 5) := by
    apply List.map_congr_left
    intro i hi
    have hik : i < k := List.mem_range.mp hi
    have : min (i * 5 + 5) n = i * 5 + 5 := by omega
    rw [this]
    congr 1
    omega
  rw [hfull, flatten_full_chunks]
  simp only [List.map_cons, List.map_nil, List.flatten_cons, List.flatten_nil,
    List.append_nil]
  have hlast : min (k * 5 + 5) n - k * 5 = n - 5 * k := by omega
  rw [hlast]
  rw [List.range_eq_range', List.range_eq_range']
  have h := List.range'_append 0 (5 * k) (n - 5 * k) 1
  simp only [Nat.one_mul, Nat.zero_add] at h
  rw [show k * 5 = 5 * k by omega]
  rw [h]
  congr 1
  omega

/-- **C1**: `calculate_chunks(page_count)` returns an ordered sequence of page
ranges that are contiguous, ascending, gap-free, non-overlapping and together
cover exactly the indices `0 .. page_count-1` — equivalently, their
concatenation in order is exactly `[0, 1, …, page_count-1]` — each chunk being
a contiguous run `range' start len` of size at most `MAX_PAGES_PER_CHUNK`. -/
theorem calculate_chunks_partition (page_count : Nat) :
    (calculate_chunks page_count).flatten = List.range page_count ∧
    (∀ c ∈ calculate_chunks page_count, c.length ≤ MAX_PAGES_PER_CHUNK) ∧
    (∀ c ∈ calculate_chunks page_count, ∃ s l, c = List.range' s l) := by
  unfold calculate_chunks MAX_PAGES_PER_CHUNK
  by_cases h : page_count ≤ 5
  · simp only [if_pos h]
    refine ⟨by simp, ?_, ?_⟩
    · intro c hc
      simp only [List.mem_singleton] at hc
      subst hc
      simpa using h
    · intro c hc
      simp only [List.mem_singleton] at hc
      exact ⟨0, page_count, by simp [hc, List.range_eq_range']⟩
  · simp only [if_neg h]
    push_neg at h
    set k := (page_count + 5 - 1) / 5 - 1 with hk
    have hkpos : (page_count + 5 - 1) / 5 = k + 1 := by omega
    have hb1 : 5 * k < page_count := by omega
    have hb2 : page_count ≤ 5 * k + 5 := by omega
    refine ⟨?_, ?_, ?_⟩
    · rw [hkpos]
      exact flatten_chunks_aux page_count k hb1 hb2
    · intro c hc
      simp only [List.mem_map] at hc
      obtain ⟨i, _, rfl⟩ := hc
      simp only [List.length_range']
      omega
    · intro c hc
      simp only [List.mem_map] at hc
      obtain ⟨i, _, rfl⟩ := hc
      exact ⟨i * 5, _, rfl⟩

/-- **C6** (counterexample): the claim says `calculate_chunks 0` is the empty
sequence of chunks, but the code takes the `page_count <= MAX_PAGES_PER_CHUNK`
branch and returns `[list(range(0))] = [[]]` — one chunk containing no pages. -/
theorem calculate_chunks_zero_not_nil : calculate_chunks 0 = [[]] ∧ calculate_chunks 0 ≠ [] := by
  constructor <;> decide

/-- **C6** (amended): for every `page_count ≤ MAX_PAGES_PER_CHUNK` — including
`page_count = 0`, which yields the singleton `[[]]`, not the empty sequence —
`calculate_chunks` returns exactly one chunk covering the whole document. -/
theorem calculate_chunks_small (page_count : Nat) (h : page_count ≤ MAX_PAGES_PER_CHUNK) :
    calculate_chunks page_count = [List.range page_count] := by
  unfold calculate_chunks
  rw [if_pos h]

/-- Witness for `calculate_chunks_small` at `page_count = 0` and `3`. -/
theorem calculate_chunks_small_witness :
    calculate_chunks 0 = [[]] ∧ calculate_chunks 3 = [[0, 1, 2]] :=
  ⟨(calculate_chunks_small 0 (by decide)).trans (by decide),
   (calculate_chunks_small 3 (by decide)).trans (by decide)⟩

/-! ## Result merger (`server_ui.py`, `merge_chunk_results`, lines 423-452)

Python dicts are embedded as insertion-ordered association lists; `d[k]`
lookup is the first binding for `k` (keys of a real dict are unique),
`d.update(e)` replaces existing keys in place and appends new ones.  A
chunk's `metadata` dict is embedded as a record of optional fields (`none`
means the key is absent).  `merge_chunk_results([])` raises `IndexError`
at `chunk_results[0]["metadata"]`, embedded as `none`. -/

/-- Python `d[k'] = v` on an insertion-ordered dict: replace in place if the
key exists, else append. -/
def dictInsert {V : Type} (d : List (String × V)) (k : String) (v : V) :
    List (String × V) :=
  if d.any (fun p => p.1 == k) then
    d.map (fun p => if p.1 == k then (k, v) else p)
  else d ++ [(k, v)]

/-- Python `d.update(e)`: insert every binding of `e` into `d`, in order. -/
def dictUpdate {V : Type} (d e : List (String × V)) : List (String × V) :=
  e.foldl (fun acc p => dictInsert acc p.1 p.2) d

/-- Python `d.get(k)` / `d[k]`: the first binding for `k`. -/
def dictGet {V : Type} (d : List (String × V)) (k : String) : Option V :=
  (d.find? (fun p => p.1 == k)).map (fun p => p.2)

/-- A chunk's `metadata` dict: the keys `merge_chunk_results` touches, with
`none` for an absent key. -/
structure Metadata (Toc Stat : Type) where
  table_of_contents : Option (List Toc)
  page_stats : Option (List Stat)
  chunk_count : Option Nat
deriving DecidableEq

/-- One entry of `chunk_results` built in `process_job` (lines 352-357). -/
structure PartialResult (Img Toc Stat : Type) where
  text : String
  images : List (String × Img)
  metadata : Metadata Toc Stat
  page_range : List Nat
deriving DecidableEq

/-- `separator = "\n\n" + "-" * 48 + "\n\n"` (server_ui.py line 433). -/
def chunkSeparator : String := "\n\n" ++ String.mk (List.replicate 48 '-') ++ "\n\n"

/-- `separator.join(chunk["text"] for chunk in chunk_results)` (line 434). -/
def mergedText {Img Toc Stat : Type} (rs : List (PartialResult Img Toc Stat)) : String :=
  String.intercalate chunkSeparator (rs.map (fun r => r.text))

/-- Lines 437-440: start from `{}` and `update` with each chunk's images,
skipping falsy (empty) dicts. -/
def mergedImages {Img Toc Stat : Type} (rs : List (PartialResult Img Toc Stat)) :
    List (String × Img) :=
  rs.foldl (fun acc r => if r.images.isEmpty then acc else dictUpdate acc r.images) []

/-- Lines 448-450: extend `page_stats` with each chunk's list when the key is
present. -/
def mergedPageStats {Img Toc Stat : Type} (rs : List (PartialResult Img Toc Stat)) :
    List Stat :=
  rs.foldl (fun acc r =>
    match r.metadata.page_stats with
    | some ps => acc ++ ps
    | none => acc) []

/-- Embedding of `merge_chunk_results(chunk_results)` (lines 423-452).
A single-element list returns that chunk's fields unchanged; otherwise text
is joined with the separator, image dicts are merged by `update` in chunk
order, and metadata is rebuilt from the first chunk's `table_of_contents`
(default `[]`), the chunk count, and the concatenated `page_stats`. -/
def merge_chunk_results {Img Toc Stat : Type}
    (chunk_results : List (PartialResult Img Toc Stat)) :
    Option (String × List (String × Img) × Metadata Toc Stat) :=
  match chunk_results with
  | [] => none
  | [r] => some (r.text, r.images, r.metadata)
  | r :: rest =>
      let rs := r :: rest
      some (mergedText rs, mergedImages rs,
        { table_of_contents := some (r.metadata.table_of_contents.getD [])
          page_stats := some (mergedPageStats rs)
          chunk_count := some rs.length })

/-! ### Merger lemmas and claims C4, C5 -/

/-- Spec-side: join a list of strings with `sep` between consecutive elements. -/
def sepJoin (sep : String) : List String → String
  | [] => ""
  | [s] => s
  | s :: rest => s ++ sep ++ sepJoin sep rest

/-- Spec-side: the value of the last binding for `k` in a flat list of
bindings (the first binding of the reversed list). -/
def lookupLast {V : Type} (l : List (String × V)) (k : String) : Option V :=
  dictGet l.reverse k

/-- `sep ++ a₁ ++ sep ++ a₂ ++ …`, the tail shape of a separator join. -/
def preJoin (sep : String) : List String → String
  | [] => ""
  | a :: as => sep ++ a ++ preJoin sep as

lemma intercalate_go_eq (s : String) (as : List String) :
    ∀ acc, String.intercalate.go acc s as = acc ++ preJoin s as := by
  induction as with
  | nil => intro acc; simp [String.intercalate.go, preJoin]
  | cons a as ih =>
    intro acc
    simp only [String.intercalate.go, preJoin, ih]
    simp [String.append_assoc]

lemma sepJoin_cons (s a : String) (as : List String) :
    sepJoin s (a :: as) = a ++ preJoin s as := by
  induction as generalizing a with
  | nil => simp [sepJoin, preJoin]
  | cons b bs ih =>
    simp only [sepJoin, preJoin, ih]
    simp [String.append_assoc]

lemma intercalate_eq_sepJoin (s : String) (l : List String) :
    String.intercalate s l = sepJoin s l := by
  cases l with
  | nil => rfl
  | cons a as =>
    show String.intercalate.go a s as = _
    rw [intercalate_go_eq, sepJoin_cons]

lemma dictGet_append {V : Type} (a b : List (String × V)) (k : String) :
    dictGet (a ++ b) k = (dictGet a k).or (dictGet b k) := by
  unfold dictGet
  rw [List.find?_append]
  cases a.find? (fun p => p.1 == k) <;> simp

lemma dictGet_singleton {V : Type} (p : String × V) (k : String) :
    dictGet [p] k = if p.1 == k then some p.2 else none := by
  by_cases hp : (p.1 == k) = true <;> simp [dictGet, List.find?, hp]

lemma lookupLast_append {V : Type} (a b : List (String × V)) (k : String) :
    lookupLast (a ++ b) k = (lookupLast b k).or (lookupLast a k) := by
  unfold lookupLast
  rw [List.reverse_append, dictGet_append]

lemma lookupLast_cons {V : Type} (p : String × V) (t : List (String × V)) (k : String) :
    lookupLast (p :: t) k = (lookupLast t k).or (dictGet [p] k) := by
  unfold lookupLast
  rw [List.reverse_cons, dictGet_append]

lemma find?_map_replace_ne {V : Type} (k' k : String) (v : V) (hne : (k' == k) = false)
    (d : List (String × V)) :
    (d.map (fun p => if p.1 == k' then (k', v) else p)).find? (fun p => p.1 == k)
      = d.find? (fun p => p.1 == k) := by
  induction d with
  | nil => rfl
  | cons p t ih =>
    simp only [List.map_cons]
    by_cases hp : (p.1 == k') = true
    · have h1 : p.1 = k' := by simpa using hp
      have hpk : (p.1 == k) = false := by rw [h1]; exact hne
      rw [if_pos hp]
      simp only [List.find?_cons, hne, hpk, ih]
    · rw [if_neg hp]
      by_cases hpk : (p.1 == k) = true
      · simp only [List.find?_cons, hpk]
      · simp only [List.find?_cons, hpk, ih]

lemma find?_map_replace_self {V : Type} (k : String) (v : V)
    (d : List (String × V)) (hany : d.any (fun p => p.1 == k) = true) :
    (d.map (fun p => if p.1 == k then (k, v) else p)).find? (fun p => p.1 == k)
      = some (k, v) := by
  induction d with
  | nil => simp at hany
  | cons p t ih =>
    simp only [List.map_cons]
    by_cases hp : (p.1 == k) = true
    · rw [if_pos hp]
      apply List.find?_cons_of_pos
      simp
    · rw [if_neg hp, List.find?_cons_of_neg]
      · apply ih
        simpa [hp] using hany
      · simp [hp]

lemma dictGet_dictInsert {V : Type} (d : List (String × V)) (k' : String) (v : V)
    (k : String) :
    dictGet (dictInsert d k' v) k = if k' == k then some v else dictGet d k := by
  unfold dictInsert
  by_cases hany : d.any (fun p => p.1 == k') = true
  · rw [if_pos hany]
    by_cases hkk : (k' == k) = true
    · have hk : k' = k := by simpa using hkk
      subst hk
      unfold dictGet
      rw [find?_map_replace_self k' v d hany]
      simp [hkk]
    · have hne : (k' == k) = false := by simpa using hkk
      unfold dictGet
      rw [find?_map_replace_ne k' k v hne d]
      simp [hkk]
  · rw [if_neg hany]
    rw [dictGet_append, dictGet_singleton]
    by_cases hkk : (k' == k) = true
    · have hk : k' = k := by simpa using hkk
      subst hk
      have hnone : dictGet d k' = none := by
        unfold dictGet
        have hfind : d.find? (fun p => p.1 == k') = none := by
          apply List.find?_eq_none.mpr
          intro x hx hcontra
          exact absurd (List.any_eq_true.mpr ⟨x, hx, hcontra⟩) hany
        rw [hfind]
        rfl
      rw [hnone]
      simp [hkk]
    · have hne : (k' == k) = false := by simpa using hkk
      simp [hne, hkk]

lemma dictGet_dictUpdate {V : Type} (e : List (String × V)) :
    ∀ (d : List (String × V)) (k : String),
      dictGet (dictUpdate d e) k = (lookupLast e k).or (dictGet d k) := by
  induction e with
  | nil => intro d k; simp [dictUpdate, lookupLast, dictGet]
  | cons p t ih =>
    intro d k
    show dictGet (dictUpdate (dictInsert d p.1 p.2) t) k = _
    rw [ih, dictGet_dictInsert, lookupLast_cons, dictGet_singleton, Option.or_assoc]
    by_cases hp : (p.1 == k) = true
    · cases lookupLast t k <;> simp [hp]
    · cases lookupLast t k <;> simp [hp]

lemma dictGet_mergedImages {Img Toc Stat : Type}
    (rs : List (PartialResult Img Toc Stat)) (k : String) :
    dictGet (mergedImages rs) k
      = lookupLast ((rs.map (fun r => r.images)).flatten) k := by
  suffices h : ∀ d,
      dictGet (rs.foldl
        (fun acc r => if r.images.isEmpty then acc else dictUpdate acc r.images) d) k
      = (lookupLast ((rs.map (fun r => r.images)).flatten) k).or (dictGet d k) by
    have h0 := h []
    unfold mergedImages
    rw [h0]
    simp [dictGet]
  induction rs with
  | nil => intro d; simp [lookupLast, dictGet]
  | cons r t ih =>
    intro d
    simp only [List.foldl_cons, List.map_cons, List.flatten_cons]
    by_cases hemp : r.images.isEmpty = true
    · have hnil : r.images = [] := by simpa using hemp
      rw [if_pos hemp, ih, hnil]
      simp
    · rw [if_neg hemp, ih, dictGet_dictUpdate, lookupLast_append, Option.or_assoc]

lemma mergedPageStats_eq {Img Toc Stat : Type}
    (rs : List (PartialResult Img Toc Stat)) :
    mergedPageStats rs
      = (rs.map (fun r => r.metadata.page_stats.getD [])).flatten := by
  suffices h : ∀ acc,
      rs.foldl (fun acc r =>
        match r.metadata.page_stats with
        | some ps => acc ++ ps
        | none => acc) acc
      = acc ++ (rs.map (fun r => r.metadata.page_stats.getD [])).flatten by
    have h0 := h []
    unfold mergedPageStats
    rw [h0]
    simp
  induction rs with
  | nil => intro acc; simp
  | cons r t ih =>
    intro acc
    simp only [List.foldl_cons, List.map_cons, List.flatten_cons]
    cases hr : r.metadata.page_stats with
    | none => rw [ih]; simp [hr]
    | some ps => rw [ih]; simp [hr, List.append_assoc]

/-- **C4**: for two or more partial results, `merge_chunk_results` returns
(1) the text fields joined in chunk order with the fixed separator between
consecutive chunks, (2) the union of the image maps in which a name bound in
several chunks looks up to the value from the latest binding in chunk order
(last-write-wins), and (3) metadata carrying the first chunk's document-level
table of contents together with the concatenation, in chunk order, of all
chunks' per-page statistics lists. -/
theorem merge_chunk_results_multi {Img Toc Stat : Type}
    (r₁ r₂ : PartialResult Img Toc Stat) (rest : List (PartialResult Img Toc Stat)) :
    ∃ text imgs md,
      merge_chunk_results (r₁ :: r₂ :: rest) = some (text, imgs, md) ∧
      text = sepJoin chunkSeparator ((r₁ :: r₂ :: rest).map (fun r => r.text)) ∧
      (∀ k, dictGet imgs k
        = lookupLast (((r₁ :: r₂ :: rest).map (fun r => r.images)).flatten) k) ∧
      md.table_of_contents = some (r₁.metadata.table_of_contents.getD []) ∧
      md.page_stats
        = some (((r₁ :: r₂ :: rest).map
            (fun r => r.metadata.page_stats.getD [])).flatten) := by
  refine ⟨mergedText (r₁ :: r₂ :: rest), mergedImages (r₁ :: r₂ :: rest), _,
    rfl, ?_, ?_, rfl, ?_⟩
  · exact intercalate_eq_sepJoin chunkSeparator _
  · intro k
    exact dictGet_mergedImages (r₁ :: r₂ :: rest) k
  · show some (mergedPageStats (r₁ :: r₂ :: rest)) = _
    rw [mergedPageStats_eq]

/-- **C5**: merging a single-element list of partial results is the identity —
the chunk's text, images and metadata are returned unchanged, with no
separator inserted and no metadata restructuring. -/
theorem merge_chunk_results_single {Img Toc Stat : Type}
    (r : PartialResult Img Toc Stat) :
    merge_chunk_results [r] = some (r.text, r.images, r.metadata) := rfl

/-! ## Queue coordinator state machine (`process_queue`, lines 241-274)

The asyncio draining loop is embedded as a small-step transition system.
Each `process_queue` invocation (one per `asyncio.create_task` in
`add_to_queue`, line 615) is a task with a program counter; code between
two `await` points runs atomically, so the guard `if
queue_state["processing"]: return` plus `queue_state["processing"] = True`
(lines 243-246) is a single step.  Splitting the loop body into separate
`pop` / `jobDone` steps only adds interleavings, which is sound for the
invariant. -/

/-- Program counter of one `process_queue` task. -/
inductive TaskPC where
  /-- created by `asyncio.create_task`, about to run the guard (lines 243-246) -/
  | entry
  /-- inside the `while`, about to test `queue_state["jobs"]` (line 249) -/
  | loop
  /-- awaiting `process_job` for the popped job (lines 251-261) -/
  | running
  /-- returned -/
  | finished
deriving DecidableEq

/-- The relevant shared state of `queue_state` plus the set of live
`process_queue` tasks. -/
structure Sys (J : Type) where
  jobs : List J
  current : Option J
  processing : Bool
  tasks : List TaskPC

/-- Which transition fired. -/
inductive QLabel (J : Type) where
  | submit (j : J)
  | guardBusy
  | guardTake
  | pop
  | drainDone
  | jobDone

/-- One atomic step of the system. `submit` is `add_to_queue` appending a
job and spawning a `process_queue` task; `guardBusy` / `guardTake` are the
lines 243-246 guard; `pop` is lines 249-252 (pop head, set
`current_job`); `jobDone` is lines 256-263 (job finished or errored,
`current_job = None`, back to the loop test); `drainDone` is the loop
exiting and `processing = False` (line 274). -/
inductive QStep {J : Type} : Sys J → QLabel J → Sys J → Prop where
  | submit (s : Sys J) (j : J) :
      QStep s (.submit j)
        { s with jobs := s.jobs ++ [j], tasks := s.tasks ++ [.entry] }
  | guardBusy (s : Sys J) (t₁ t₂ : List TaskPC)
      (h : s.tasks = t₁ ++ .entry :: t₂) (hp : s.processing = true) :
      QStep s .guardBusy { s with tasks := t₁ ++ .finished :: t₂ }
  | guardTake (s : Sys J) (t₁ t₂ : List TaskPC)
      (h : s.tasks = t₁ ++ .entry :: t₂) (hp : s.processing = false) :
      QStep s .guardTake { s with processing := true, tasks := t₁ ++ .loop :: t₂ }
  | pop (s : Sys J) (t₁ t₂ : List TaskPC) (j : J) (rest : List J)
      (h : s.tasks = t₁ ++ .loop :: t₂) (hj : s.jobs = j :: rest) :
      QStep s .pop
        { s with jobs := rest, current := some j, tasks := t₁ ++ .running :: t₂ }
  | drainDone (s : Sys J) (t₁ t₂ : List TaskPC)
      (h : s.tasks = t₁ ++ .loop :: t₂) (hj : s.jobs = []) :
      QStep s .drainDone
        { s with processing := false, tasks := t₁ ++ .finished :: t₂ }
  | jobDone (s : Sys J) (t₁ t₂ : List TaskPC)
      (h : s.tasks = t₁ ++ .running :: t₂) :
      QStep s .jobDone { s with current := none, tasks := t₁ ++ .loop :: t₂ }

/-- States reachable from the empty initial state by any interleaving of
submissions and task steps. -/
inductive QReach {J : Type} : Sys J → Prop where
  | init : QReach { jobs := [], current := none, processing := false, tasks := [] }
  | step {s s' : Sys J} {l : QLabel J} : QReach s → QStep s l s' → QReach s'

/-- A task inside the draining loop (holding the `processing` flag). -/
def isDraining : TaskPC → Bool
  | .loop => true
  | .running => true
  | _ => false

/-- A task currently running a job. -/
def isRunning : TaskPC → Bool
  | .running => true
  | _ => false

def drainCount (ts : List TaskPC) : Nat := ts.countP isDraining

def runCount (ts : List TaskPC) : Nat := ts.countP isRunning

lemma countP_split (p : TaskPC → Bool) (t₁ t₂ : List TaskPC) (x : TaskPC) :
    List.countP p (t₁ ++ x :: t₂)
      = List.countP p t₁ + (List.countP p t₂ + if p x then 1 else 0) := by
  simp [List.countP_append, List.countP_cons]

lemma runCount_le_drainCount (ts : List TaskPC) : runCount ts ≤ drainCount ts := by
  apply List.countP_mono_left
  intro x _ hx
  cases x <;> simp_all [isRunning, isDraining]

/-- The inductive invariant: the `processing` flag counts the draining
tasks, and a current job means exactly one task is running it. -/
def QInv {J : Type} (s : Sys J) : Prop :=
  drainCount s.tasks = (if s.processing then 1 else 0) ∧
  (s.current.isSome = true → runCount s.tasks = 1)

lemma qReach_inv {J : Type} (s : Sys J) (h : QReach s) : QInv s := by
  induction h with
  | init => exact ⟨by simp [drainCount], by simp⟩
  | @step s s' l hr hstep ih =>
    obtain ⟨ih1, ih2⟩ := ih
    cases hstep with
    | submit j =>
      refine ⟨?_, fun hc => ?_⟩
      · dsimp only
        simpa [drainCount, List.countP_append, List.countP_cons, List.countP_nil,
          isDraining] using ih1
      · dsimp only at hc
        dsimp only
        simpa [runCount, List.countP_append, List.countP_cons, List.countP_nil,
          isRunning] using ih2 hc
    | guardBusy t₁ t₂ hts hp =>
      rw [hts] at ih1 ih2
      refine ⟨?_, fun hc => ?_⟩
      · dsimp only
        unfold drainCount at ih1 ⊢
        rw [countP_split] at ih1
        rw [countP_split]
        simp only [isDraining, reduceIte, Bool.false_eq_true, if_false, Nat.add_zero] at ih1 ⊢
        exact ih1
      · dsimp only at hc
        dsimp only
        have h2 := ih2 hc
        unfold runCount at h2 ⊢
        rw [countP_split] at h2
        rw [countP_split]
        simp only [isRunning, reduceIte, Bool.false_eq_true, if_false, Nat.add_zero] at h2 ⊢
        exact h2
    | guardTake t₁ t₂ hts hp =>
      rw [hts] at ih1 ih2
      rw [hp] at ih1
      refine ⟨?_, fun hc => ?_⟩
      · dsimp only
        unfold drainCount at ih1 ⊢
        rw [countP_split] at ih1
        rw [countP_split]
        simp only [isDraining, reduceIte, Bool.false_eq_true, if_false, Nat.add_zero] at ih1 ⊢
        omega
      · dsimp only at hc
        dsimp only
        have h2 := ih2 hc
        unfold runCount at h2 ⊢
        rw [countP_split] at h2
        rw [countP_split]
        simp only [isRunning, reduceIte, Bool.false_eq_true, if_false, Nat.add_zero] at h2 ⊢
        exact h2
    | pop t₁ t₂ j rest hts hj =>
      rw [hts] at ih1
      have hm1 := runCount_le_drainCount t₁
      have hm2 := runCount_le_drainCount t₂
      unfold drainCount at ih1
      unfold drainCount runCount at hm1 hm2
      rw [countP_split] at ih1
      cases hproc : s.processing with
      | false =>
        rw [hproc] at ih1
        simp only [isDraining, reduceIte, Bool.false_eq_true, if_false, Nat.add_zero] at ih1
        exfalso
        omega
      | true =>
        rw [hproc] at ih1
        simp only [isDraining, reduceIte, Bool.false_eq_true, if_false, Nat.add_zero] at ih1
        refine ⟨?_, fun hc => ?_⟩
        · dsimp only
          unfold drainCount
          rw [countP_split]
          simp only [isDraining, reduceIte, Bool.false_eq_true, if_false, Nat.add_zero]
          omega
        · dsimp only
          unfold runCount
          rw [countP_split]
          simp only [isRunning, reduceIte, Bool.false_eq_true, if_false, Nat.add_zero]
          omega
    | drainDone t₁ t₂ hts hj =>
      rw [hts] at ih1 ih2
      unfold drainCount at ih1
      rw [countP_split] at ih1
      cases hproc : s.processing with
      | false =>
        rw [hproc] at ih1
        simp only [isDraining, reduceIte, Bool.false_eq_true, if_false, Nat.add_zero] at ih1
        exfalso
        omega
      | true =>
        rw [hproc] at ih1
        simp only [isDraining, reduceIte, Bool.false_eq_true, if_false, Nat.add_zero] at ih1
        refine ⟨?_, fun hc => ?_⟩
        · dsimp only
          unfold drainCount
          rw [countP_split]
          simp only [isDraining, reduceIte, Bool.false_eq_true, if_false, Nat.add_zero]
          omega
        · dsimp only at hc
          dsimp only
          have h2 := ih2 hc
          unfold runCount at h2 ⊢
          rw [countP_split] at h2
          rw [countP_split]
          simp only [isRunning, reduceIte, Bool.false_eq_true, if_false, Nat.add_zero] at h2 ⊢
          exact h2
    | jobDone t₁ t₂ hts =>
      rw [hts] at ih1 ih2
      refine ⟨?_, fun hc => ?_⟩
      · dsimp only
        unfold drainCount at ih1 ⊢
        rw [countP_split] at ih1
        rw [countP_split]
        simp only [isDraining, reduceIte, Bool.false_eq_true, if_false, Nat.add_zero] at ih1 ⊢
        exact ih1
      · dsimp only at hc
        simp at hc

/-- **C2**: in every reachable state, at most one `process_queue` task is
draining the queue; a current job implies the `processing` flag is held and
exactly one task is running that job (so at most one job is ever in the
`processing` state); `guardTake` (entering the loop) is impossible while
`processing` is already set; and a `guardBusy` step — a second invocation
of `process_queue` while one is draining — leaves the jobs, the current
job and the `processing` flag untouched (it does nothing). -/
theorem process_queue_single_worker {J : Type} :
    (∀ s : Sys J, QReach s →
      drainCount s.tasks ≤ 1 ∧
      (s.current.isSome = true → s.processing = true ∧ runCount s.tasks = 1)) ∧
    (∀ s s' : Sys J, s.processing = true → ¬ QStep s QLabel.guardTake s') ∧
    (∀ s s' : Sys J, QStep s QLabel.guardBusy s' →
      s'.jobs = s.jobs ∧ s'.current = s.current ∧ s'.processing = s.processing) := by
  refine ⟨?_, ?_, ?_⟩
  · intro s hs
    obtain ⟨h1, h2⟩ := qReach_inv s hs
    refine ⟨?_, fun hc => ⟨?_, h2 hc⟩⟩
    · rw [h1]
      cases s.processing <;> simp
    · have hrun := h2 hc
      have hm := runCount_le_drainCount s.tasks
      rw [h1] at hm
      cases hproc : s.processing with
      | true => rfl
      | false =>
        rw [hproc] at hm
        simp at hm
        omega
  · intro s s' hp hstep
    cases hstep with
    | guardTake t₁ t₂ hts hpf => rw [hp] at hpf; exact absurd hpf (by simp)
  · intro s s' hstep
    cases hstep with
    | guardBusy t₁ t₂ hts hp => exact ⟨rfl, rfl, rfl⟩

/-- Witness for `process_queue_single_worker`: the state reached by one
submission, taking the guard, and popping the job is reachable and
satisfies the invariant. -/
theorem process_queue_single_worker_witness :
    drainCount [TaskPC.running] ≤ 1 ∧
    ((some (0 : Nat)).isSome = true → true = true ∧ runCount [TaskPC.running] = 1) := by
  have h0 : QReach (⟨[], none, false, []⟩ : Sys Nat) := QReach.init
  have h1 : QReach (⟨[0], none, false, [TaskPC.entry]⟩ : Sys Nat) :=
    QReach.step h0 (QStep.submit ⟨[], none, false, []⟩ 0)
  have h2 : QReach (⟨[0], none, true, [TaskPC.loop]⟩ : Sys Nat) :=
    QReach.step h1 (QStep.guardTake ⟨[0], none, false, [TaskPC.entry]⟩ [] [] rfl rfl)
  have h3 : QReach (⟨[], some 0, true, [TaskPC.running]⟩ : Sys Nat) :=
    QReach.step h2 (QStep.pop ⟨[0], none, true, [TaskPC.loop]⟩ [] [] 0 [] rfl rfl)
  exact process_queue_single_worker.1 ⟨[], some 0, true, [TaskPC.running]⟩ h3

/-! ## Per-job processing (`process_job`, lines 287-420, inside the
`try/except` of `process_queue`, lines 256-261) -/

/-- The conversion options captured at submission (`add_to_queue`,
lines 581-592). -/
structure JobOptions where
  output_markdown : Bool
  output_json : Bool
  output_images : Bool
  force_ocr : Bool
  paginate_output : Bool
deriving DecidableEq

/-- An output artifact written by the success path. -/
inductive ArtifactKind where
  | markdown
  | json
  | images
deriving DecidableEq

/-- Terminal status recorded by `save_job_to_history`.  `crashed` stands for
an exception raised after all chunks succeeded (only possible for
`merge_chunk_results` on an empty list, which `calculate_chunks` never
produces). -/
inductive JobStatus (E : Type) where
  | complete
  | error (e : E)
  | crashed
deriving DecidableEq

/-- The chunk loop of `process_job` (lines 312-368): invoke the converter on
each page range in order; a raised exception aborts the loop at once.
Returns the page ranges actually attempted, in order, and either the
accumulated `chunk_results` or the first error. -/
def runChunks {PR E : Type} (conv : List Nat → Except E PR) :
    List (List Nat) → List (List Nat) × Except E (List PR)
  | [] => ([], .ok [])
  | c :: rest =>
      match conv c with
      | .error e => ([c], .error e)
      | .ok r =>
          let p := runChunks conv rest
      (p.1.cons c, p.2.map (fun rs => r :: rs))

/-- Everything observable about one pass of the draining loop body for one
job. -/
structure JobOutcome (Img Toc Stat E : Type) where
  status : JobStatus E
  attempted : List (List Nat)
  merged : Option (String × List (String × Img) × Metadata Toc Stat)
  artifacts : List ArtifactKind
  sourceFileDeleted : Bool
  queueRowRemoved : Bool
deriving DecidableEq

/-- Which artifacts the success path writes (lines 377-404): markdown when
`output_markdown`, JSON when `output_json`, images when `output_images` and
the merged image dict is non-empty (truthy). -/
def writtenArtifacts {Img Toc Stat : Type} (opts : JobOptions)
    (merged : String × List (String × Img) × Metadata Toc Stat) : List ArtifactKind :=
  (if opts.output_markdown then [ArtifactKind.markdown] else []) ++
  (if opts.output_json then [ArtifactKind.json] else []) ++
  (if opts.output_images && !merged.2.1.isEmpty then [ArtifactKind.images] else [])

/-- Embedding of `process_job` (lines 287-420) run under the `try/except`
of `process_queue` (lines 256-261), with the converter for one page range
abstracted as `conv`.  On the success path the chunk results are merged,
artifacts are written, the job is saved `complete`, the uploaded source
file is unlinked and its queue-table row deleted (lines 406-420).  If any
chunk's conversion raises, the exception propagates out of `process_job`
before the merge: `process_queue` records the job as `error` (line 261)
and nothing after the loop runs — no merge, no artifact writes, no file
deletion, no queue-row removal. -/
def run_one_job {Img Toc Stat E : Type} (opts : JobOptions)
    (conv : List Nat → Except E (PartialResult Img Toc Stat))
    (page_count : Nat) : JobOutcome Img Toc Stat E :=
  match runChunks conv (calculate_chunks page_count) with
  | (attempted, .error e) =>
      { status := .error e, attempted := attempted, merged := none,
        artifacts := [], sourceFileDeleted := false, queueRowRemoved := false }
  | (attempted, .ok chunk_results) =>
      match merge_chunk_results chunk_results with
      | none =>
          { status := .crashed, attempted := attempted, merged := none,
            artifacts := [], sourceFileDeleted := false, queueRowRemoved := false }
      | some m =>
          { status := .complete, attempted := attempted, merged := some m,
            artifacts := writtenArtifacts opts m,
            sourceFileDeleted := true, queueRowRemoved := true }

lemma runChunks_fail {PR E : Type} (conv : List Nat → Except E PR)
    (pre : List (List Nat)) (c : List Nat) (post : List (List Nat)) (e : E)
    (hpre : ∀ x ∈ pre, ∃ r, conv x = .ok r) (hc : conv c = .error e) :
    runChunks conv (pre ++ c :: post) = (pre ++ [c], .error e) := by
  induction pre with
  | nil => simp [runChunks, hc]
  | cons x pre ih =>
    obtain ⟨r, hr⟩ := hpre x (by simp)
    have ih2 := ih (fun y hy => hpre y (by simp [hy]))
    simp [runChunks, hr, ih2, Except.map]

/-- **C3**: if the conversion of a chunk fails, every earlier chunk having
succeeded, then the job stops right there: the attempted page ranges are
exactly the successful prefix plus the failing chunk (no later chunk is
attempted), the job's status is `error` with that cause (never `complete`),
no partial results are merged, and no output artifact is written; and the
draining loop's `jobDone` step — which continues with the next pending
job — is available regardless of the outcome. -/
theorem chunk_failure_aborts_job {Img Toc Stat E : Type} (opts : JobOptions)
    (conv : List Nat → Except E (PartialResult Img Toc Stat)) (page_count : Nat)
    (pre : List (List Nat)) (c : List Nat) (post : List (List Nat)) (e : E)
    (hchunks : calculate_chunks page_count = pre ++ c :: post)
    (hpre : ∀ x ∈ pre, ∃ r, conv x = .ok r) (hc : conv c = .error e) :
    (run_one_job opts conv page_count).status = JobStatus.error e ∧
    (run_one_job opts conv page_count).attempted = pre ++ [c] ∧
    (run_one_job opts conv page_count).merged = none ∧
    (run_one_job opts conv page_count).artifacts = [] ∧
    (∀ (J : Type) (s : Sys J) (t₁ t₂ : List TaskPC),
      s.tasks = t₁ ++ TaskPC.running :: t₂ →
      QStep s QLabel.jobDone { s with current := none, tasks := t₁ ++ TaskPC.loop :: t₂ }) := by
  have h := runChunks_fail conv pre c post e hpre hc
  unfold run_one_job
  rw [hchunks, h]
  exact ⟨rfl, rfl, rfl, rfl, fun J s t₁ t₂ hts => QStep.jobDone s t₁ t₂ hts⟩

/-- The Form field defaults of `add_to_queue` (lines 559-563). -/
def defaultOpts : JobOptions :=
  { output_markdown := true, output_json := false, output_images := true,
    force_ocr := false, paginate_output := false }

/-- A fixed partial result used in concrete runs. -/
def samplePR : PartialResult Nat Nat Nat :=
  { text := "page text", images := [("fig1", 7)],
    metadata := { table_of_contents := some [1], page_stats := some [3],
                  chunk_count := none },
    page_range := [0, 1, 2, 3, 4] }

/-- A converter that succeeds on the first chunk of a 12-page document and
fails on every other page range. -/
def failingConv : List Nat → Except String (PartialResult Nat Nat Nat) :=
  fun c => if c = [0, 1, 2, 3, 4] then .ok samplePR else .error "conversion failed"

/-- Witness for `chunk_failure_aborts_job`: a 12-page job
(chunks `[0..5) [5..10) [10..12)`) whose second chunk fails ends in
`error`, attempted exactly chunks 1 and 2 (chunk 3 never), merged nothing
and wrote nothing. -/
theorem chunk_failure_aborts_job_witness :
    (run_one_job defaultOpts failingConv 12).status = JobStatus.error "conversion failed" ∧
    (run_one_job defaultOpts failingConv 12).attempted = [[0, 1, 2, 3, 4], [5, 6, 7, 8, 9]] ∧
    (run_one_job defaultOpts failingConv 12).merged = none ∧
    (run_one_job defaultOpts failingConv 12).artifacts = [] := by
  have h := chunk_failure_aborts_job defaultOpts failingConv 12
    [[0, 1, 2, 3, 4]] [5, 6, 7, 8, 9] [[10, 11]] "conversion failed"
    (by decide)
    (fun x hx => ⟨samplePR, by
      have hx2 : x = [0, 1, 2, 3, 4] := by simpa using hx
      rw [hx2]
      rfl⟩)
    rfl
  exact ⟨h.1, h.2.1, h.2.2.1, h.2.2.2.1⟩

/-- **C7** (counterexample): the claim says the uploaded source file is
deleted and the queue row removed on the failure path too, but a job whose
second chunk fails ends with status `error` while its source file is still
present and its queue-table row still exists: the cleanup code
(lines 411-420) is only reached at the end of the success path, and the
`except` handler (lines 258-261) only writes the error to history. -/
theorem cleanup_missing_on_error :
    (run_one_job defaultOpts failingConv 12).status = JobStatus.error "conversion failed" ∧
    (run_one_job defaultOpts failingConv 12).sourceFileDeleted = false ∧
    (run_one_job defaultOpts failingConv 12).queueRowRemoved = false := by
  decide

/-- **C7** (amended): cleanup is tied to success, not to reaching a terminal
state: the uploaded source file is deleted and the queue-table row removed
exactly when the job completes successfully; on the failure path neither
happens. -/
theorem cleanup_only_on_success {Img Toc Stat E : Type} (opts : JobOptions)
    (conv : List Nat → Except E (PartialResult Img Toc Stat)) (page_count : Nat) :
    ((run_one_job opts conv page_count).sourceFileDeleted = true ↔
      (run_one_job opts conv page_count).status = JobStatus.complete) ∧
    ((run_one_job opts conv page_count).queueRowRemoved = true ↔
      (run_one_job opts conv page_count).status = JobStatus.complete) := by
  unfold run_one_job
  rcases hres : runChunks conv (calculate_chunks page_count) with ⟨att, res⟩
  cases res with
  | error e => simp
  | ok rs =>
    cases hm : merge_chunk_results rs with
    | none => simp [hm]
    | some m => simp [hm]

/-! ## Submission endpoint (`add_to_queue`, lines 556-617)

The endpoint's effects on server state: the in-memory pending deque
`queue_state["jobs"]`, the durable `queue` table, the durable `jobs` table
(written only by `save_job_to_history`, lines 455-481), and the files
stored under `UPLOAD_DIR`.  `uuid.uuid4()` and `datetime.now()` are
abstracted as the `job_id` / `created_at` inputs.  Python's
`filename.lower().endswith('.pdf')` is embedded at the character level. -/

/-- Python `s.lower()` (ASCII-relevant part). -/
def pyLower (s : String) : String := String.mk (s.data.map Char.toLower)

/-- Python `s.endswith(suffix)`. -/
def pyEndsWith (s suffix : String) : Bool := suffix.data.isSuffixOf s.data

/-- The in-memory job dict built at lines 581-592. -/
structure QueueJob where
  id : String
  filename : String
  file_size : Nat
  filepath : String
  opts : JobOptions
  created_at : String
deriving DecidableEq

/-- A row of the durable `queue` table (insert at lines 600-608). -/
structure QueueRow where
  id : String
  filename : String
  file_size : Nat
  filepath : String
  opts : JobOptions
  created_at : String
  position : Nat
deriving DecidableEq

/-- A row of the durable `jobs` table (the job record store, written only by
`save_job_to_history`). -/
structure JobRow where
  id : String
  filename : String
  file_size : Nat
  status : String
  created_at : String
  completed_at : String
  has_markdown : Bool
  has_json : Bool
  has_images : Bool
  error_message : Option String
  total_chunks : Nat
deriving DecidableEq

/-- The server-side state touched by submission. -/
structure ServerState where
  queueJobs : List QueueJob
  jobsTable : List JobRow
  queueTable : List QueueRow
  uploads : List String
deriving DecidableEq

/-- `raise HTTPException(status_code=..., detail=...)`. -/
structure HTTPError where
  status_code : Nat
  detail : String
deriving DecidableEq

/-- Embedding of `add_to_queue` (lines 556-617).  The PDF check happens
first (lines 566-567), before the job id is allocated, the file is saved or
any state is touched, so rejection returns the state unchanged.  On accept:
the uploaded file is saved as `uploads/<job_id>.pdf`, the job dict is
appended to the in-memory deque, a row is inserted into the `queue` table
with `position = len(queue_state["jobs"])` (measured after the append), and
`{job_id, position}` is returned.  The `jobs` table is not touched. -/
def add_to_queue (s : ServerState) (filename : String) (content_size : Nat)
    (opts : JobOptions) (job_id : String) (created_at : String) :
    ServerState × Except HTTPError (String × Nat) :=
  if !(pyEndsWith (pyLower filename) ".pdf") then
    (s, .error { status_code := 400, detail := "Only PDF files are supported" })
  else
    let upload_path := "uploads/" ++ job_id ++ ".pdf"
    let job : QueueJob :=
      { id := job_id, filename := filename, file_size := content_size,
        filepath := upload_path, opts := opts, created_at := created_at }
    let newJobs := s.queueJobs ++ [job]
    let row : QueueRow :=
      { id := job_id, filename := filename, file_size := content_size,
        filepath := upload_path, opts := opts, created_at := created_at,
        position := newJobs.length }
    ({ s with queueJobs := newJobs,
              queueTable := s.queueTable ++ [row],
              uploads := s.uploads ++ [upload_path] },
     .ok (job_id, newJobs.length))

/-- The server state with nothing stored. -/
def emptyServer : ServerState :=
  { queueJobs := [], jobsTable := [], queueTable := [], uploads := [] }

/-- **C8** (counterexample): submitting `a.pdf` to an empty server succeeds
(returns the job id), yet the `jobs` table of the returned state is still
empty — no record with status `queued` (or any record at all) exists in the
durable job record store when submission returns; only the in-memory deque
and the `queue` table hold the job. -/
theorem submit_leaves_jobs_table_empty :
    (add_to_queue emptyServer "a.pdf" 3 defaultOpts "job-1" "t0").2
      = .ok ("job-1", 1) ∧
    (add_to_queue emptyServer "a.pdf" 3 defaultOpts "job-1" "t0").1.jobsTable = [] := by
  constructor <;> rfl

/-- **C8** (amended): when submission is accepted, at the moment it returns
the job has been appended to the in-memory pending queue and a row inserted
into the durable `queue` table (with its position), and the job id is
returned — but no record is created in the `jobs` table (the durable job
record store); a `jobs` row for the job first appears at its terminal
transition via `save_job_to_history`. -/
theorem add_to_queue_accepts (s : ServerState) (filename : String)
    (content_size : Nat) (opts : JobOptions) (job_id created_at : String)
    (h : pyEndsWith (pyLower filename) ".pdf" = true) :
    (add_to_queue s filename content_size opts job_id created_at).2
      = .ok (job_id, s.queueJobs.length + 1) ∧
    (add_to_queue s filename content_size opts job_id created_at).1.queueJobs
      = s.queueJobs ++
        [{ id := job_id, filename := filename, file_size := content_size,
           filepath := "uploads/" ++ job_id ++ ".pdf", opts := opts,
           created_at := created_at }] ∧
    (add_to_queue s filename content_size opts job_id created_at).1.queueTable
      = s.queueTable ++
        [{ id := job_id, filename := filename, file_size := content_size,
           filepath := "uploads/" ++ job_id ++ ".pdf", opts := opts,
           created_at := created_at, position := s.queueJobs.length + 1 }] ∧
    (add_to_queue s filename content_size opts job_id created_at).1.jobsTable
      = s.jobsTable := by
  unfold add_to_queue
  rw [h]
  simp

/-- Witness for `add_to_queue_accepts` at the case-insensitive filename
`Report.PDF` on the empty server. -/
theorem add_to_queue_accepts_witness :
    (add_to_queue emptyServer "Report.PDF" 9 defaultOpts "job-2" "t1").2
      = .ok ("job-2", 1) ∧
    (add_to_queue emptyServer "Report.PDF" 9 defaultOpts "job-2" "t1").1.jobsTable
      = [] := by
  have h := add_to_queue_accepts emptyServer "Report.PDF" 9 defaultOpts
    "job-2" "t1" (by decide)
  refine ⟨?_, ?_⟩
  · exact h.1.trans rfl
  · exact (h.2.2.2).trans rfl

/-- **C10**: the submission endpoint accepts only filenames ending,
case-insensitively, in `.pdf`: for every other filename it returns HTTP 400
with detail `Only PDF files are supported` and the returned state is exactly
the input state — no job id allocated, no file stored, nothing appended to
the in-memory queue, no table touched. -/
theorem add_to_queue_rejects_non_pdf (s : ServerState) (filename : String)
    (content_size : Nat) (opts : JobOptions) (job_id created_at : String)
    (h : pyEndsWith (pyLower filename) ".pdf" = false) :
    add_to_queue s filename content_size opts job_id created_at
      = (s, .error { status_code := 400, detail := "Only PDF files are supported" }) := by
  unfold add_to_queue
  rw [h]
  rfl

/-- Witness for `add_to_queue_rejects_non_pdf` at `notes.txt`. -/
theorem add_to_queue_rejects_non_pdf_witness :
    add_to_queue emptyServer "notes.txt" 5 defaultOpts "job-3" "t2"
      = (emptyServer,
         .error { status_code := 400, detail := "Only PDF files are supported" }) :=
  add_to_queue_rejects_non_pdf emptyServer "notes.txt" 5 defaultOpts "job-3" "t2"
    (by decide)

/-! ## Google Drive poller (`google_drive.py`)

The Drive API listing is abstracted as the input `remote` (already ordered
by `createdTime`); the fallible `try` block of `poll_and_queue` — download
plus `add_to_queue_callback` — is abstracted as `act : DriveFile → Option
String`, `none` meaning an exception was raised (the file is then skipped
and not marked) and `some job_id` meaning the enqueue succeeded. -/

/-- Metadata of a remote Drive file (`files().list`, lines 179-186). -/
structure DriveFile where
  id : String
  name : String
  mimeType : String
  size : Nat
deriving DecidableEq

/-- A row of the `gdrive_processed` tracking table (lines 109-117). -/
structure ProcessedRow where
  drive_file_id : String
  filename : String
  job_id : String
  uploaded_to_done : Bool
deriving DecidableEq

/-- The poller's durable state: the tracking table. -/
structure PollerState where
  processed : List ProcessedRow
deriving DecidableEq

/-- `PDF_MIME_TYPES = {'application/pdf'}` (line 55). -/
def PDF_MIME_TYPES : List String := ["application/pdf"]

/-- `_is_file_processed` (lines 121-131): a row with this id exists. -/
def is_file_processed (st : PollerState) (drive_file_id : String) : Bool :=
  st.processed.any (fun r => r.drive_file_id == drive_file_id)

/-- `_mark_file_processed` (lines 133-144): `INSERT OR REPLACE` keyed by
`drive_file_id` — any conflicting row is replaced by the new one. -/
def mark_file_processed (st : PollerState)
    (drive_file_id filename job_id : String) : PollerState :=
  { processed :=
      st.processed.filter (fun r => r.drive_file_id != drive_file_id) ++
      [{ drive_file_id := drive_file_id, filename := filename,
         job_id := job_id, uploaded_to_done := false }] }

/-- `list_new_files` (lines 169-197): keep the files whose MIME type is in
`PDF_MIME_TYPES` and that are not recorded as processed. -/
def list_new_files (st : PollerState) (remote : List DriveFile) : List DriveFile :=
  remote.filter (fun f => PDF_MIME_TYPES.contains f.mimeType && !(is_file_processed st f.id))

/-- One iteration of the `poll_and_queue` loop (lines 334-360): on success
mark the file processed and collect the job id; on an exception leave the
state as it was and continue. -/
def pollStep (act : DriveFile → Option String)
    (acc : PollerState × List String) (f : DriveFile) : PollerState × List String :=
  match act f with
  | some job_id => (mark_file_processed acc.1 f.id f.name job_id, acc.2 ++ [job_id])
  | none => acc

/-- `poll_and_queue` (lines 320-361): compute the new files once, then
process them in order. -/
def poll_and_queue (st : PollerState) (remote : List DriveFile)
    (act : DriveFile → Option String) : PollerState × List String :=
  (list_new_files st remote).foldl (pollStep act) (st, [])

lemma processed_mark_self (st : PollerState) (i n j : String) :
    is_file_processed (mark_file_processed st i n j) i = true := by
  simp [is_file_processed, mark_file_processed]

lemma processed_mark_mono (st : PollerState) (x i n j : String)
    (h : is_file_processed st x = true) :
    is_file_processed (mark_file_processed st i n j) x = true := by
  unfold is_file_processed at h ⊢
  unfold mark_file_processed
  rcases List.any_eq_true.mp h with ⟨r, hr, hrx⟩
  have hrx2 : r.drive_file_id = x := by simpa using hrx
  by_cases hxy : x = i
  · subst hxy
    simp
  · apply List.any_eq_true.mpr
    refine ⟨r, ?_, hrx⟩
    apply List.mem_append.mpr
    left
    apply List.mem_filter.mpr
    refine ⟨hr, ?_⟩
    simp [hrx2, hxy]

lemma processed_fold_mono (act : DriveFile → Option String) (l : List DriveFile) :
    ∀ (acc : PollerState × List String) (x : String),
      is_file_processed acc.1 x = true →
      is_file_processed (l.foldl (pollStep act) acc).1 x = true := by
  induction l with
  | nil => intro acc x h; exact h
  | cons g t ih =>
    intro acc x h
    rw [List.foldl_cons]
    apply ih
    unfold pollStep
    cases hact : act g with
    | none => exact h
    | some jid => exact processed_mark_mono acc.1 x g.id g.name jid h

lemma processed_after_fold (act : DriveFile → Option String) (l : List DriveFile) :
    ∀ (acc : PollerState × List String) (f : DriveFile) (jid : String),
      f ∈ l → act f = some jid →
      is_file_processed (l.foldl (pollStep act) acc).1 f.id = true := by
  induction l with
  | nil => intro _ _ _ hmem; exact absurd hmem (List.not_mem_nil _)
  | cons g t ih =>
    intro acc f jid hmem hact
    rw [List.foldl_cons]
    rcases List.mem_cons.mp hmem with hfg | hft
    · subst hfg
      apply processed_fold_mono
      unfold pollStep
      rw [hact]
      exact processed_mark_self acc.1 f.id f.name jid
    · exact ih _ f jid hft hact

/-- **C9**: the poller enqueues each remote file at most once.
`list_new_files` only returns files from the listing whose MIME type is PDF
and whose Drive id is not yet in the processed-files table; every file the
poll successfully enqueues is recorded as processed in the resulting state;
and consequently no file with that Drive id is ever returned by
`list_new_files` — hence enqueued — on any later poll. -/
theorem poller_enqueues_each_file_once (st : PollerState)
    (remote : List DriveFile) (act : DriveFile → Option String) :
    (∀ f ∈ list_new_files st remote,
      f.mimeType = "application/pdf" ∧ is_file_processed st f.id = false) ∧
    (∀ f ∈ list_new_files st remote, ∀ jid, act f = some jid →
      is_file_processed (poll_and_queue st remote act).1 f.id = true) ∧
    (∀ f ∈ list_new_files st remote, ∀ jid, act f = some jid →
      ∀ (remote2 : List DriveFile) (g : DriveFile),
        g ∈ list_new_files (poll_and_queue st remote act).1 remote2 →
        g.id ≠ f.id) := by
  have hmark : ∀ f ∈ list_new_files st remote, ∀ jid, act f = some jid →
      is_file_processed (poll_and_queue st remote act).1 f.id = true := by
    intro f hf jid hact
    unfold poll_and_queue
    exact processed_after_fold act (list_new_files st remote) (st, []) f jid hf hact
  refine ⟨?_, hmark, ?_⟩
  · intro f hf
    unfold list_new_files at hf
    rcases List.mem_filter.mp hf with ⟨_, hcond⟩
    rcases Bool.and_eq_true_iff.mp hcond with ⟨hmime, hproc⟩
    constructor
    · simpa [PDF_MIME_TYPES, List.contains] using hmime
    · simpa using hproc
  · intro f hf jid hact remote2 g hg heq
    have hgproc : is_file_processed (poll_and_queue st remote act).1 g.id = false := by
      unfold list_new_files at hg
      rcases List.mem_filter.mp hg with ⟨_, hcond⟩
      rcases Bool.and_eq_true_iff.mp hcond with ⟨_, hproc⟩
      simpa using hproc
    rw [heq] at hgproc
    rw [hmark f hf jid hact] at hgproc
    exact Bool.noConfusion hgproc

/-- Fixtures: one fresh PDF, one non-PDF, one already-processed PDF. -/
def driveFileA : DriveFile :=
  { id := "dA", name := "a.pdf", mimeType := "application/pdf", size := 4 }

def pollSt0 : PollerState :=
  { processed := [{ drive_file_id := "dC", filename := "c.pdf",
                    job_id := "job-0", uploaded_to_done := false }] }

def pollRemote : List DriveFile :=
  [driveFileA,
   { id := "dB", name := "b.txt", mimeType := "text/plain", size := 2 },
   { id := "dC", name := "c.pdf", mimeType := "application/pdf", size := 8 }]

def pollAct : DriveFile → Option String :=
  fun f => if f.id = "dA" then some "job-9" else none

/-- Witness for `poller_enqueues_each_file_once`: after polling, the freshly
enqueued file `dA` is recorded as processed. -/
theorem poller_enqueues_each_file_once_witness :
    is_file_processed (poll_and_queue pollSt0 pollRemote pollAct).1 "dA" = true :=
  (poller_enqueues_each_file_once pollSt0 pollRemote pollAct).2.1
    driveFileA (by decide) "job-9" (by decide)
